import Mathlib

/-!
Verification development for the LabelForge batch label-rendering pipeline.

Buffers are modelled as `List Nat` of byte values (little-endian multi-byte
reads as in Node's `readUInt32LE`/`readUInt16LE`); reads beyond the end of a
buffer yield `0`.  Strings are modelled at the byte / character-list level,
which coincides with JavaScript string semantics for the ASCII data handled
here.  Real arithmetic (`fontSize * 0.58`, `fontSize * 1.2`) is modelled
exactly over the rationals: `0.58 = 29/50` and `1.2 = 6/5`, so
`floor(u / (fontSize * 0.58)) = (50 * u) / (29 * fontSize)` in natural-number
division and `Math.round(fontSize * 1.2) = (12 * fontSize + 5) / 10`.
External libraries (zlib's `inflateRawSync`, sharp's metadata/composite,
papaparse) are treated as parameters of the embedding.
-/

namespace LabelForge

/-- Byte list for an ASCII string (models JS strings / UTF-8 buffers at the
byte level; all names handled by the claims are ASCII). -/
def strB (s : String) : List Nat :=
  s.data.map Char.toNat

/-- Models `buffer.readUInt16LE(offset)`; out-of-range bytes read as 0. -/
def readUInt16LE (buf : List Nat) (off : Nat) : Nat :=
  buf.getD off 0 + 256 * buf.getD (off + 1) 0

/-- Models `buffer.readUInt32LE(offset)`; out-of-range bytes read as 0. -/
def readUInt32LE (buf : List Nat) (off : Nat) : Nat :=
  buf.getD off 0 + 256 * buf.getD (off + 1) 0 +
    65536 * buf.getD (off + 2) 0 + 16777216 * buf.getD (off + 3) 0

/-- ASCII lowercasing of a byte string, as JS `toLowerCase` acts on the
ASCII range. -/
def lowerBytes (bs : List Nat) : List Nat :=
  bs.map (fun b => if 65 ≤ b ∧ b ≤ 90 then b + 32 else b)

/-- Splitting a byte string at a separator byte, JS `String.split` style:
`n` separators produce `n + 1` (possibly empty) pieces. -/
def splitOnByteAux (sep : Nat) : List Nat → List Nat → List (List Nat)
  | [], acc => [acc.reverse]
  | b :: bs, acc =>
    if b = sep then acc.reverse :: splitOnByteAux sep bs []
    else splitOnByteAux sep bs (b :: acc)

/-- Embeds `getBaseName` (route variant with the inline ZIP reader):
`filePath.split("/").pop() ?? filePath` — the final forward-slash-separated
segment, case preserved. -/
def getBaseName (bs : List Nat) : List Nat :=
  (splitOnByteAux 47 bs []).getLastD []

/-- Last index of a byte in a byte string (JS `lastIndexOf`), `none` when
absent. -/
def lastIndexOfByteAux (b : Nat) : List Nat → Nat → Option Nat → Option Nat
  | [], _, best => best
  | x :: xs, i, best =>
    lastIndexOfByteAux b xs (i + 1) (if x = b then some i else best)

def lastIndexOfByte (b : Nat) (bs : List Nat) : Option Nat :=
  lastIndexOfByteAux b bs 0 none

/-- Embeds `baseName.slice(baseName.lastIndexOf(".")).toLowerCase()`:
when no dot is present JS `lastIndexOf` yields `-1` and `slice(-1)` takes
the final character. -/
def extOf (baseName : List Nat) : List Nat :=
  match lastIndexOfByte 46 baseName with
  | some i => lowerBytes (baseName.drop i)
  | none => lowerBytes (baseName.drop (baseName.length - 1))

/-- Embeds `IMAGE_EXTENSIONS = new Set([".png", ".jpg", ".jpeg"])`. -/
def IMAGE_EXTENSIONS : List (List Nat) :=
  [strB (".png"), strB (".jpg"), strB (".jpeg")]

/-- Embeds the `ZipEntry` record of the inline ZIP reader. -/
structure ZipEntry where
  fileName : List Nat
  compressedSize : Nat
  uncompressedSize : Nat
  compressionMethod : Nat
  localHeaderOffset : Nat
deriving DecidableEq

/-- Failure modes of the inline ZIP reader (each constructor corresponds to
one `throw new Error(...)` site). -/
inductive ZipError where
  | eocdNotFound
  | malformedCentralDirectory
  | missingLocalHeader (fileName : List Nat)
  | unsupportedCompression (fileName : List Nat)
  | emptyArchive
deriving DecidableEq

/-- The bounded backward scan for the end-of-central-directory signature:
`for (let i = len - 22; i >= max(0, len - 22 - 65535); i -= 1)`, structurally
on the scan position. -/
def findEocdAux (buf : List Nat) (lo : Nat) : Nat → Option Nat
  | 0 => if readUInt32LE buf 0 = 0x06054b50 then some 0 else none
  | i + 1 =>
    if readUInt32LE buf (i + 1) = 0x06054b50 then some (i + 1)
    else if i + 1 ≤ lo then none
    else findEocdAux buf lo i

/-- One pass over the central directory records (the `while (offset < end)`
loop of `parseZipEntries`).  Each iteration advances the offset by at least
46 bytes, so the loop runs at most `endPos` times; the fuel argument
(instantiated with `endPos`) therefore never runs out on the paths reachable
from `parseZipEntries`. -/
def parseCDAux (buf : List Nat) (endPos : Nat) :
    Nat → Nat → Except ZipError (List ZipEntry)
  | offset, fuel =>
    if offset < endPos then
      match fuel with
      | 0 => .error .malformedCentralDirectory
      | fuel + 1 =>
        if readUInt32LE buf offset = 0x02014b50 then
          let fileNameLength := readUInt16LE buf (offset + 28)
          let extraLength := readUInt16LE buf (offset + 30)
          let commentLength := readUInt16LE buf (offset + 32)
          match parseCDAux buf endPos
              (offset + 46 + fileNameLength + extraLength + commentLength)
              fuel with
          | .error e => .error e
          | .ok rest =>
            .ok ({ fileName := (buf.drop (offset + 46)).take fileNameLength
                   compressedSize := readUInt32LE buf (offset + 20)
                   uncompressedSize := readUInt32LE buf (offset + 24)
                   compressionMethod := readUInt16LE buf (offset + 10)
                   localHeaderOffset := readUInt32LE buf (offset + 42) }
              :: rest)
        else .error .malformedCentralDirectory
    else .ok []

/-- Embeds `parseZipEntries`: trailer-first, directory-driven parse.  When the
buffer is shorter than a trailer the JS loop never runs, hence the guard. -/
def parseZipEntries (buf : List Nat) : Except ZipError (List ZipEntry) :=
  if buf.length < 22 then .error .eocdNotFound
  else
    match findEocdAux buf (buf.length - 22 - 65535) (buf.length - 22) with
    | none => .error .eocdNotFound
    | some eocdOffset =>
      let centralDirectorySize := readUInt32LE buf (eocdOffset + 12)
      let centralDirectoryOffset := readUInt32LE buf (eocdOffset + 16)
      parseCDAux buf (centralDirectoryOffset + centralDirectorySize)
        centralDirectoryOffset (centralDirectoryOffset + centralDirectorySize)

/-- Embeds `extractEntryBuffer`.  `inflateRaw` stands for zlib's
`inflateRawSync`, an external collaborator. -/
def extractEntryBuffer (inflateRaw : List Nat → List Nat)
    (zipBuffer : List Nat) (entry : ZipEntry) : Except ZipError (List Nat) :=
  if readUInt32LE zipBuffer entry.localHeaderOffset = 0x04034b50 then
    let fileNameLength := readUInt16LE zipBuffer (entry.localHeaderOffset + 26)
    let extraLength := readUInt16LE zipBuffer (entry.localHeaderOffset + 28)
    let dataStart := entry.localHeaderOffset + 30 + fileNameLength + extraLength
    let compressedData := (zipBuffer.drop dataStart).take entry.compressedSize
    if entry.compressionMethod = 0 then .ok compressedData
    else if entry.compressionMethod = 8 then .ok (inflateRaw compressedData)
    else .error (.unsupportedCompression entry.fileName)
  else .error (.missingLocalHeader entry.fileName)

/-- First binding for a key in an association-list map
(JS `Map.prototype.get`). -/
def mapGet (m : List (List Nat × List Nat)) (k : List Nat) : Option (List Nat) :=
  match m.find? (fun kv => kv.1 = k) with
  | some kv => some kv.2
  | none => none

/-- JS `Map.prototype.set`: overwrite in place when the key is present,
append otherwise. -/
def mapSet (m : List (List Nat × List Nat)) (k : List Nat) (v : List Nat) :
    List (List Nat × List Nat) :=
  if m.any (fun kv => kv.1 = k) then
    m.map (fun kv => if kv.1 = k then (k, v) else kv)
  else m ++ [(k, v)]

/-- The body of the `for (const entry of entries)` loop of `parseImagesZip`:
skip directory markers (name ending in `/`, byte 47) and non-image
extensions, otherwise extract and insert under the base name. -/
def addEntry (inflateRaw : List Nat → List Nat) (zipBuffer : List Nat)
    (m : List (List Nat × List Nat)) (entry : ZipEntry) :
    Except ZipError (List (List Nat × List Nat)) :=
  if entry.fileName.getLast? = some 47 then .ok m
  else
    let baseName := getBaseName entry.fileName
    if IMAGE_EXTENSIONS.contains (extOf baseName) then
      match extractEntryBuffer inflateRaw zipBuffer entry with
      | .error e => .error e
      | .ok fileBuffer => .ok (mapSet m baseName fileBuffer)
    else .ok m

/-- The whole entry loop of `parseImagesZip`, threading the map. -/
def buildMap (inflateRaw : List Nat → List Nat) (zipBuffer : List Nat) :
    List ZipEntry → List (List Nat × List Nat) →
    Except ZipError (List (List Nat × List Nat))
  | [], m => .ok m
  | e :: es, m =>
    match addEntry inflateRaw zipBuffer m e with
    | .error err => .error err
    | .ok m' => buildMap inflateRaw zipBuffer es m'

/-- Embeds `parseImagesZip` of the inline-reader route variant. -/
def parseImagesZip (inflateRaw : List Nat → List Nat) (zipBuffer : List Nat) :
    Except ZipError (List (List Nat × List Nat)) :=
  match parseZipEntries zipBuffer with
  | .error e => .error e
  | .ok entries =>
    match buildMap inflateRaw zipBuffer entries [] with
    | .error e => .error e
    | .ok images =>
      if images.length = 0 then .error .emptyArchive else .ok images

/-- An entry survives the filtering of `parseImagesZip`: it is not a
directory marker and its (lowercased) extension is a recognized image
extension. -/
def retainEntry (e : ZipEntry) : Bool :=
  !(e.fileName.getLast? == some 47) &&
    IMAGE_EXTENSIONS.contains (extOf (getBaseName e.fileName))

/-! ## Text layout engine

`wrapAndClamp` of `src/src/app/api/generate/route.ts` (identical in the
sibling route variants), modelled over character lists.  `splitWords` embeds
`text.split(/\s+/).filter(Boolean)`, `chunkWord` the hard-split `while` loop
for oversized tokens, and `wrapWords` the greedy word-wrap loop. -/

/-- Whitespace-separated tokens of a character list, empty tokens dropped:
the JS `text.split(/\s+/).filter(Boolean)`. -/
def splitWordsAux : List Char → List Char → List (List Char)
  | [], acc => if acc.isEmpty then [] else [acc.reverse]
  | c :: cs, acc =>
    if c.isWhitespace then
      if acc.isEmpty then splitWordsAux cs []
      else acc.reverse :: splitWordsAux cs []
    else splitWordsAux cs (c :: acc)

def splitWords (text : List Char) : List (List Char) :=
  splitWordsAux text []

/-- The hard-split loop for a word longer than the per-line budget:
`while (start < word.length) lines.push(word.slice(start, start + k))`.
The fuel argument (instantiated with the word's length) bounds the number of
iterations; with `1 ≤ k` it never runs out. -/
def chunkWord (k : Nat) : Nat → List Char → List (List Char)
  | 0, _ => []
  | _, [] => []
  | fuel + 1, c :: cs => (c :: cs).take k :: chunkWord k fuel ((c :: cs).drop k)

/-- The greedy word-wrap loop of `wrapAndClamp`: grow `current` while the
candidate fits in `k` characters, flush otherwise, hard-splitting oversized
words. -/
def wrapWords (k : Nat) : List (List Char) → List Char → List (List Char)
  | [], current => if current.isEmpty then [] else [current]
  | w :: ws, current =>
    let candidate := if current.isEmpty then w else current ++ ' ' :: w
    if candidate.length ≤ k then wrapWords k ws candidate
    else
      let flushed := if current.isEmpty then [] else [current]
      if k < w.length then
        flushed ++ (chunkWord k w.length w ++ wrapWords k ws [])
      else flushed ++ wrapWords k ws w

/-- Embeds `wrapAndClamp(text, zone, fontSize)` over character lists, with
the zone rectangle passed as its width and height.  Exact-arithmetic
counterparts of the float formulas:
`approxCharsPerLine = max 1 (floor(usableWidth / (fontSize * 0.58)))`
with `0.58 = 29/50`, `lineHeight = round(fontSize * 1.2) = (12*f + 5) / 10`,
and `maxLines = max 1 (floor((h - 12) / lineHeight))` using floor division
on integers (`Int.fdiv`) as JS `Math.floor` of a real quotient. -/
def wrapAndClampC (text : List Char) (zw zh : Int) (fontSize : Nat) :
    List (List Char) :=
  let usableWidth : Int := max 1 (zw - 6 * 2)
  let approxCharsPerLine : Nat :=
    max 1 ((50 * usableWidth.toNat) / (29 * fontSize))
  let words := splitWords text
  let wrapped := wrapWords approxCharsPerLine words []
  let lines := if wrapped.isEmpty then [([] : List Char)] else wrapped
  let lineHeight : Nat := (12 * fontSize + 5) / 10
  let maxLines : Nat := (max 1 ((zh - 6 * 2).fdiv (lineHeight : Int))).toNat
  let clipped := lines.take maxLines
  if maxLines < lines.length then
    clipped.dropLast ++
      [(clipped.getLastD []).take ((clipped.getLastD []).length - 1) ++ ['…']]
  else clipped

/-- Embeds the `Zone` record of the generate route (optional fields as sent
in the JSON payload). -/
structure Zone where
  id : String
  x : Int
  y : Int
  w : Int
  h : Int
  fontSize : Option Int
  align : Option String
  color : Option String
deriving DecidableEq

/-- `wrapAndClamp` at the source signature. -/
def wrapAndClamp (text : String) (zone : Zone) (fontSize : Nat) :
    List String :=
  (wrapAndClampC text.data zone.w zone.h fontSize).map (fun l => String.mk l)

/-! ## Overlay construction

Structural embedding of the per-zone computation of `buildOverlaySvg`
(column lookup, font-size clamping, layout, alignment keyword, fill color);
the XML serialization around it carries no further logic. -/

/-- A CSV row: ordered column-name/value pairs. -/
abbrev Row := List (String × String)

/-- JS `row[column] ?? ""` followed by `String(...)`. -/
def rowGet (row : Row) (column : String) : String :=
  match row.find? (fun cv => cv.1 = column) with
  | some cv => cv.2
  | none => ""

/-- JS `mapping[zone.id]` on the zone-to-column mapping object. -/
def mappingGet (mapping : List (String × String)) (zoneId : String) :
    Option String :=
  match mapping.find? (fun kv => kv.1 = zoneId) with
  | some kv => some kv.2
  | none => none

/-- One `<text>` group of the overlay, structurally. -/
structure TextGroup where
  fontSize : Int
  lines : List (List Char)
  align : String
  color : String
deriving DecidableEq

/-- Per-zone computation of `buildOverlaySvg`: the mapped column (a falsy —
missing or empty — mapping entry yields the empty string), the clamped font
size `max(8, min(120, zone.fontSize ?? 24))`, the layout, the text-anchor
keyword and the fill color. -/
def buildOverlayGroups (zones : List Zone) (mapping : List (String × String))
    (row : Row) : List TextGroup :=
  zones.map (fun zone =>
    let value :=
      match mappingGet mapping zone.id with
      | some column => if column = "" then "" else rowGet row column
      | none => ""
    let fontSize : Int := max 8 (min 120 (zone.fontSize.getD 24))
    { fontSize := fontSize
      lines := wrapAndClampC value.data zone.w zone.h fontSize.toNat
      align :=
        if zone.align = some ("right") then "end"
        else if zone.align = some ("center") then "middle"
        else "start"
      color := zone.color.getD ("#111111") })

/-! ## The batch generate route (`POST` of `src/src/app/api/generate/route.ts`)

Multipart form decoding, JSON parsing and CSV parsing are external
collaborators (the spec treats the spreadsheet parser as a black box yielding
the ordered row records and the column-name set), so a request is modelled by
the decoded values the route works with.  Image decode/encode (sharp) and CSV
re-serialization (papaparse `unparse`) are parameters. -/

/-- An uploaded file: its advertised size and its byte content. -/
structure FormFile where
  size : Nat
  bytes : List Nat
deriving DecidableEq

/-- The uploaded CSV file together with the black-box parse outcome
(`Papa.parse` with `header: true, skipEmptyLines: true`): error messages,
header fields and data rows. -/
structure CsvFile where
  file : FormFile
  parseErrors : List String
  fields : List String
  data : List Row
deriving DecidableEq

/-- A decoded generate request.  `none` models a missing form field (or a
field that is not a `File` / not a string where the route requires one). -/
structure GenRequest where
  template : Option FormFile
  csv : Option CsvFile
  imagesZip : Option FormFile
  imageColumn : Option String
  zones : Option (List Zone)
  mapping : Option (List (String × String))

def MAX_ROWS : Nat := 50
def MAX_TEMPLATE_SIZE_BYTES : Nat := 5 * 1024 * 1024
def MAX_CSV_SIZE_BYTES : Nat := 2 * 1024 * 1024
def MAX_IMAGES_ZIP_SIZE_BYTES : Nat := 50 * 1024 * 1024

/-- Error responses of the batch route, one constructor per early-return
site.  `zipError` wraps a throw escaping `parseImagesZip` (surfaced by the
framework as a server error; everything else is a 400 client error). -/
inductive ApiError where
  | missingCsvZonesMapping
  | missingSource
  | templateTooLarge
  | zipTooLarge
  | csvTooLarge
  | noZones
  | csvParseFailed (msg : String)
  | missingImageFileColumn
  | missingImageColumn (column : String)
  | noRows
  | tooManyRows (limit : Nat)
  | zipError (e : ZipError)
  | templateRequired
  | rowMissingFilename (rowNumber : Nat) (column : String)
  | missingImageInZip (fileName : String) (rowNumber : Nat)
  | badImageDimensions (rowNumber : Nat)
deriving DecidableEq

/-- HTTP status of each failure response. -/
def ApiError.status : ApiError → Nat
  | .zipError _ => 500
  | _ => 400

deriving instance DecidableEq for Except

/-- Outcome of a batch run: the HTTP response (an error, or the final
archive as an ordered list of named entries) together with the image entries
that were appended to the archive before completion or abort. -/
structure GenResult where
  response : Except ApiError (List (String × List Nat))
  rendered : List (String × List Nat)
deriving DecidableEq

/-- An error response; nothing was rendered or appended. -/
def errResult (e : ApiError) : GenResult :=
  ⟨.error e, []⟩

/-- `template instanceof File && template.size > limit` (and likewise for
the images ZIP). -/
def fileTooLarge (f : Option FormFile) (limit : Nat) : Bool :=
  match f with
  | some t => limit < t.size
  | none => false

/-- The effective image-filename column:
`typeof raw === "string" && raw ? raw : "image_file"`. -/
def effImageColumn (raw : Option String) : String :=
  match raw with
  | some s => if s = "" then "image_file" else s
  | none => "image_file"

/-- Modelled from the spec: `normalizeImageFileName` lives in the
repository's `lib/images-zip` module, which is not among the provided source
files (only its importers are).  Per the spec it replaces backslashes with
forward slashes, takes the final path segment and lowercases, here at the
byte level. -/
def normalizeImageFileName (bs : List Nat) : List Nat :=
  lowerBytes (getBaseName (bs.map (fun b => if b = 92 then 47 else b)))

/-- Modelled from the spec: the loop body of the `lib/images-zip` variant of
`parseImagesZip` (missing from the provided sources), which normalizes each
entry name and inserts into the result map, overwriting prior entries. -/
def libAddEntry (inflateRaw : List Nat → List Nat) (zipBuffer : List Nat)
    (m : List (List Nat × List Nat)) (entry : ZipEntry) :
    Except ZipError (List (List Nat × List Nat)) :=
  if entry.fileName.getLast? = some 47 then .ok m
  else
    let name := normalizeImageFileName entry.fileName
    if IMAGE_EXTENSIONS.contains (extOf name) then
      match extractEntryBuffer inflateRaw zipBuffer entry with
      | .error e => .error e
      | .ok fileBuffer => .ok (mapSet m name fileBuffer)
    else .ok m

def libBuildMap (inflateRaw : List Nat → List Nat) (zipBuffer : List Nat) :
    List ZipEntry → List (List Nat × List Nat) →
    Except ZipError (List (List Nat × List Nat))
  | [], m => .ok m
  | e :: es, m =>
    match libAddEntry inflateRaw zipBuffer m e with
    | .error err => .error err
    | .ok m' => libBuildMap inflateRaw zipBuffer es m'

/-- Modelled from the spec: the `parseImagesZip` of `lib/images-zip` used by
the batch route (missing from the provided sources); same trailer-first
parse, filtering and empty-archive check as the inline variant, with
normalized keys. -/
def libParseImagesZip (inflateRaw : List Nat → List Nat)
    (zipBuffer : List Nat) : Except ZipError (List (List Nat × List Nat)) :=
  match parseZipEntries zipBuffer with
  | .error e => .error e
  | .ok entries =>
    match libBuildMap inflateRaw zipBuffer entries [] with
    | .error e => .error e
    | .ok images =>
      if images.length = 0 then .error .emptyArchive else .ok images

/-- `String(index + 1).padStart(4, "0")`. -/
def pad4 (n : Nat) : String :=
  let s := toString n
  String.mk (List.replicate (4 - s.length) '0') ++ s

/-- One iteration of the row loop: resolve the background (ZIP lookup by
normalized filename, or the fixed template buffer), read its dimensions
(`dims` stands for sharp's `metadata()`; `0`/missing dimensions fail), and
render (`renderRow` stands for the overlay + composite + PNG encode),
yielding the archive entry `images/NNNN.png`. -/
def renderOne (dims : List Nat → Option (Nat × Nat))
    (renderRow : Nat → Nat → List Zone → List (String × String) → Row →
      List Nat → List Nat)
    (zones : List Zone) (mapping : List (String × String))
    (imageColumn : String) (imageMap : Option (List (List Nat × List Nat)))
    (templateBuffer : Option (List Nat)) (index : Nat) (row : Row) :
    Except ApiError (String × List Nat) :=
  let backgroundE : Except ApiError (List Nat) :=
    match imageMap with
    | some m =>
      let imageFileName := (rowGet row imageColumn).trim
      if imageFileName = "" then
        .error (.rowMissingFilename (index + 1) imageColumn)
      else
        match mapGet m (normalizeImageFileName (strB imageFileName)) with
        | some fromZip => .ok fromZip
        | none => .error (.missingImageInZip imageFileName (index + 1))
    | none => .ok (templateBuffer.getD [])
  match backgroundE with
  | .error e => .error e
  | .ok background =>
    match dims background with
    | some (width, height) =>
      if width = 0 ∨ height = 0 then .error (.badImageDimensions (index + 1))
      else
        .ok ("images/" ++ pad4 (index + 1) ++ ".png",
          renderRow width height zones mapping row background)
    | none => .error (.badImageDimensions (index + 1))

/-- The row loop: entries appended in row order; on a row failure the
entries appended so far are reported alongside the error. -/
def renderRows (dims : List Nat → Option (Nat × Nat))
    (renderRow : Nat → Nat → List Zone → List (String × String) → Row →
      List Nat → List Nat)
    (zones : List Zone) (mapping : List (String × String))
    (imageColumn : String) (imageMap : Option (List (List Nat × List Nat)))
    (templateBuffer : Option (List Nat)) :
    Nat → List Row → List (String × List Nat) × Option ApiError
  | _, [] => ([], none)
  | i, row :: rest =>
    match renderOne dims renderRow zones mapping imageColumn imageMap
        templateBuffer i row with
    | .error e => ([], some e)
    | .ok entry =>
      let (es, r) :=
        renderRows dims renderRow zones mapping imageColumn imageMap
          templateBuffer (i + 1) rest
      (entry :: es, r)

/-- The tail of the route after validation: run the row loop, then append
`output.csv` (`unparse` stands for `Papa.unparse`) and finalize. -/
def runBatch (dims : List Nat → Option (Nat × Nat))
    (renderRow : Nat → Nat → List Zone → List (String × String) → Row →
      List Nat → List Nat)
    (unparse : List Row → List Nat)
    (zones : List Zone) (mapping : List (String × String))
    (imageColumn : String) (imageMap : Option (List (List Nat × List Nat)))
    (templateBuffer : Option (List Nat)) (rows : List Row) : GenResult :=
  let (entries, errOpt) :=
    renderRows dims renderRow zones mapping imageColumn imageMap
      templateBuffer 0 rows
  match errOpt with
  | some e => ⟨.error e, entries⟩
  | none => ⟨.ok (entries ++ [("output.csv", unparse rows)]), entries⟩

/-- Embeds `POST` of the batch generate route: the validation chain in
source order, then the row loop. -/
def generatePOST (dims : List Nat → Option (Nat × Nat))
    (renderRow : Nat → Nat → List Zone → List (String × String) → Row →
      List Nat → List Nat)
    (unparse : List Row → List Nat)
    (inflateRaw : List Nat → List Nat) (req : GenRequest) : GenResult :=
  match req.csv, req.zones, req.mapping with
  | some csv, some zones, some mapping =>
    if req.template = none ∧ req.imagesZip = none then
      errResult .missingSource
    else if fileTooLarge req.template MAX_TEMPLATE_SIZE_BYTES then
      errResult .templateTooLarge
    else if fileTooLarge req.imagesZip MAX_IMAGES_ZIP_SIZE_BYTES then
      errResult .zipTooLarge
    else if MAX_CSV_SIZE_BYTES < csv.file.size then
      errResult .csvTooLarge
    else if zones.isEmpty then
      errResult .noZones
    else
      let imageColumn := effImageColumn req.imageColumn
      match csv.parseErrors with
      | msg :: _ => errResult (.csvParseFailed msg)
      | [] =>
        let headers := csv.fields.filter (fun f => f ≠ "")
        if "image_file" ∉ headers then
          errResult .missingImageFileColumn
        else if imageColumn ∉ headers then
          errResult (.missingImageColumn imageColumn)
        else
          let rows := csv.data.filter (fun row => row ≠ [])
          if rows.isEmpty then
            errResult .noRows
          else if MAX_ROWS < rows.length then
            errResult (.tooManyRows MAX_ROWS)
          else
            match req.imagesZip with
            | some z =>
              match libParseImagesZip inflateRaw z.bytes with
              | .error e => errResult (.zipError e)
              | .ok imageMap =>
                runBatch dims renderRow unparse zones mapping imageColumn
                  (some imageMap) none rows
            | none =>
              match req.template with
              | some t =>
                runBatch dims renderRow unparse zones mapping imageColumn
                  none (some t.bytes) rows
              | none => errResult .templateRequired
  | _, _, _ => errResult .missingCsvZonesMapping


/-! ## Concrete archive buffers used by counterexamples and witnesses

Minimal stored/deflated ZIP archives (local headers, central directory,
end-of-central-directory trailer), written out byte by byte. -/

def zipPhotoLower : List Nat :=
  [80, 75, 3, 4, 20, 0, 0, 0, 0, 0, 0, 0, 0, 0, 0, 0, 0, 0, 3, 0, 0, 0, 3, 0, 0, 0, 17, 0, 0, 0, 112, 105, 99, 115, 47, 112, 104, 111, 116, 111, 32, 48, 49, 46, 106, 112, 103, 1, 2, 3, 80, 75, 1, 2, 20, 0, 20, 0, 0, 0, 0, 0, 0, 0, 0, 0, 0, 0, 0, 0, 3, 0, 0, 0, 3, 0, 0, 0, 17, 0, 0, 0, 0, 0, 0, 0, 0, 0, 0, 0, 0, 0, 0, 0, 0, 0, 112, 105, 99, 115, 47, 112, 104, 111, 116, 111, 32, 48, 49, 46, 106, 112, 103, 80, 75, 5, 6, 0, 0, 0, 0, 1, 0, 1, 0, 63, 0, 0, 0, 50, 0, 0, 0, 0, 0]

def zipPhotoMixed : List Nat :=
  [80, 75, 3, 4, 20, 0, 0, 0, 0, 0, 0, 0, 0, 0, 0, 0, 0, 0, 3, 0, 0, 0, 3, 0, 0, 0, 17, 0, 0, 0, 112, 105, 99, 115, 47, 80, 104, 111, 116, 111, 32, 48, 49, 46, 74, 80, 71, 1, 2, 3, 80, 75, 1, 2, 20, 0, 20, 0, 0, 0, 0, 0, 0, 0, 0, 0, 0, 0, 0, 0, 3, 0, 0, 0, 3, 0, 0, 0, 17, 0, 0, 0, 0, 0, 0, 0, 0, 0, 0, 0, 0, 0, 0, 0, 0, 0, 112, 105, 99, 115, 47, 80, 104, 111, 116, 111, 32, 48, 49, 46, 74, 80, 71, 80, 75, 5, 6, 0, 0, 0, 0, 1, 0, 1, 0, 63, 0, 0, 0, 50, 0, 0, 0, 0, 0]

def zipDup : List Nat :=
  [80, 75, 3, 4, 20, 0, 0, 0, 0, 0, 0, 0, 0, 0, 0, 0, 0, 0, 1, 0, 0, 0, 1, 0, 0, 0, 7, 0, 0, 0, 97, 47, 120, 46, 112, 110, 103, 9, 80, 75, 3, 4, 20, 0, 0, 0, 0, 0, 0, 0, 0, 0, 0, 0, 0, 0, 1, 0, 0, 0, 1, 0, 0, 0, 7, 0, 0, 0, 98, 47, 120, 46, 112, 110, 103, 7, 80, 75, 1, 2, 20, 0, 20, 0, 0, 0, 0, 0, 0, 0, 0, 0, 0, 0, 0, 0, 1, 0, 0, 0, 1, 0, 0, 0, 7, 0, 0, 0, 0, 0, 0, 0, 0, 0, 0, 0, 0, 0, 0, 0, 0, 0, 97, 47, 120, 46, 112, 110, 103, 80, 75, 1, 2, 20, 0, 20, 0, 0, 0, 0, 0, 0, 0, 0, 0, 0, 0, 0, 0, 1, 0, 0, 0, 1, 0, 0, 0, 7, 0, 0, 0, 0, 0, 0, 0, 0, 0, 0, 0, 0, 0, 38, 0, 0, 0, 98, 47, 120, 46, 112, 110, 103, 80, 75, 5, 6, 0, 0, 0, 0, 2, 0, 2, 0, 106, 0, 0, 0, 76, 0, 0, 0, 0, 0]

def zipTxt : List Nat :=
  [80, 75, 3, 4, 20, 0, 0, 0, 0, 0, 0, 0, 0, 0, 0, 0, 0, 0, 1, 0, 0, 0, 1, 0, 0, 0, 10, 0, 0, 0, 114, 101, 97, 100, 109, 101, 46, 116, 120, 116, 65, 80, 75, 1, 2, 20, 0, 20, 0, 0, 0, 0, 0, 0, 0, 0, 0, 0, 0, 0, 0, 1, 0, 0, 0, 1, 0, 0, 0, 10, 0, 0, 0, 0, 0, 0, 0, 0, 0, 0, 0, 0, 0, 0, 0, 0, 0, 114, 101, 97, 100, 109, 101, 46, 116, 120, 116, 80, 75, 5, 6, 0, 0, 0, 0, 1, 0, 1, 0, 56, 0, 0, 0, 41, 0, 0, 0, 0, 0]

def zipDeflated : List Nat :=
  [80, 75, 3, 4, 20, 0, 0, 0, 8, 0, 0, 0, 0, 0, 0, 0, 0, 0, 2, 0, 0, 0, 2, 0, 0, 0, 5, 0, 0, 0, 100, 46, 112, 110, 103, 5, 6, 80, 75, 1, 2, 20, 0, 20, 0, 0, 0, 8, 0, 0, 0, 0, 0, 0, 0, 0, 0, 2, 0, 0, 0, 2, 0, 0, 0, 5, 0, 0, 0, 0, 0, 0, 0, 0, 0, 0, 0, 0, 0, 0, 0, 0, 0, 100, 46, 112, 110, 103, 80, 75, 5, 6, 0, 0, 0, 0, 1, 0, 1, 0, 51, 0, 0, 0, 37, 0, 0, 0, 0, 0]

def zipBadMethod : List Nat :=
  [80, 75, 3, 4, 20, 0, 0, 0, 9, 0, 0, 0, 0, 0, 0, 0, 0, 0, 1, 0, 0, 0, 1, 0, 0, 0, 5, 0, 0, 0, 109, 46, 112, 110, 103, 5, 80, 75, 1, 2, 20, 0, 20, 0, 0, 0, 9, 0, 0, 0, 0, 0, 0, 0, 0, 0, 1, 0, 0, 0, 1, 0, 0, 0, 5, 0, 0, 0, 0, 0, 0, 0, 0, 0, 0, 0, 0, 0, 0, 0, 0, 0, 109, 46, 112, 110, 103, 80, 75, 5, 6, 0, 0, 0, 0, 1, 0, 1, 0, 51, 0, 0, 0, 36, 0, 0, 0, 0, 0]


/-- Concrete collaborator instances and requests used by the pipeline
witnesses: constant image dimensions, a renderer returning the background
bytes, a constant CSV serializer. -/
def dimsConst : List Nat → Option (Nat × Nat) :=
  fun _ => some (4, 5)

def renderKeepBackground :
    Nat → Nat → List Zone → List (String × String) → Row → List Nat →
    List Nat :=
  fun _ _ _ _ _ background => background

def unparseConst : List Row → List Nat :=
  fun _ => [1]

def zoneA : Zone :=
  { id := "z1", x := 0, y := 0, w := 100, h := 50, fontSize := some 24,
    align := none, color := none }

def csvTwoRows : CsvFile :=
  { file := { size := 10, bytes := [] }, parseErrors := [],
    fields := ["image_file", "name"],
    data := [[("image_file", "a.png"), ("name", "Alice")],
             [("image_file", "b.png"), ("name", "Bob")]] }

def reqTemplateOk : GenRequest :=
  { template := some { size := 100, bytes := [9, 9] },
    csv := some csvTwoRows, imagesZip := none, imageColumn := none,
    zones := some [zoneA], mapping := some [("z1", "name")] }

def csvFiftyOneRows : CsvFile :=
  { file := { size := 10, bytes := [] }, parseErrors := [],
    fields := ["image_file"],
    data := List.replicate 51 [("image_file", "x")] }

def reqTooManyRows : GenRequest :=
  { template := some { size := 100, bytes := [1] },
    csv := some csvFiftyOneRows, imagesZip := none, imageColumn := none,
    zones := some [zoneA], mapping := some [] }

def csvNoImageFile : CsvFile :=
  { file := { size := 10, bytes := [] }, parseErrors := [],
    fields := ["name"], data := [[("name", "A")]] }

def reqMissingHeader : GenRequest :=
  { template := some { size := 100, bytes := [1] },
    csv := some csvNoImageFile, imagesZip := none, imageColumn := none,
    zones := some [zoneA], mapping := some [] }

/-- The central-directory entries of the concrete archives above, as
`parseZipEntries` returns them. -/
def entryPhotoLower : ZipEntry :=
  { fileName := strB ("pics/photo 01.jpg"), compressedSize := 3,
    uncompressedSize := 3, compressionMethod := 0, localHeaderOffset := 0 }

def entryTxt : ZipEntry :=
  { fileName := strB ("readme.txt"), compressedSize := 1,
    uncompressedSize := 1, compressionMethod := 0, localHeaderOffset := 0 }

def entryDeflated : ZipEntry :=
  { fileName := strB ("d.png"), compressedSize := 2,
    uncompressedSize := 2, compressionMethod := 8, localHeaderOffset := 0 }

def entryBadMethod : ZipEntry :=
  { fileName := strB ("m.png"), compressedSize := 1,
    uncompressedSize := 1, compressionMethod := 9, localHeaderOffset := 0 }

def entryDupA : ZipEntry :=
  { fileName := strB ("a/x.png"), compressedSize := 1,
    uncompressedSize := 1, compressionMethod := 0, localHeaderOffset := 0 }

def entryDupB : ZipEntry :=
  { fileName := strB ("b/x.png"), compressedSize := 1,
    uncompressedSize := 1, compressionMethod := 0, localHeaderOffset := 38 }

/-! ## Lemmas about the text layout engine -/

/-- Every token produced by `splitWordsAux` is nonempty. -/
theorem splitWordsAux_mem_ne_nil :
    ∀ (cs acc w : List Char), w ∈ splitWordsAux cs acc → w ≠ [] := by
  intro cs
  induction cs with
  | nil =>
    intro acc w hw
    by_cases h : acc.isEmpty
    · simp [splitWordsAux, h] at hw
    · simp [splitWordsAux, h] at hw
      subst hw
      simpa [List.isEmpty_iff] using h
  | cons c cs ih =>
    intro acc w hw
    by_cases hws : c.isWhitespace
    · by_cases h : acc.isEmpty
      · simp only [splitWordsAux, hws, if_pos h, if_true] at hw
        exact ih [] w hw
      · simp only [splitWordsAux, hws, if_true, if_neg h, List.mem_cons] at hw
        rcases hw with rfl | hw
        · simpa [List.isEmpty_iff] using h
        · exact ih [] w hw
    · simp only [splitWordsAux, hws, if_false, Bool.false_eq_true] at hw
      exact ih (c :: acc) w hw

/-- A character list of whitespace only yields no tokens. -/
theorem splitWords_all_ws :
    ∀ (cs : List Char), (∀ c ∈ cs, c.isWhitespace) → splitWords cs = [] := by
  intro cs
  induction cs with
  | nil => intro _; simp [splitWords, splitWordsAux]
  | cons c cs ih =>
    intro h
    have hc : c.isWhitespace := h c (by simp)
    have hrest : ∀ x ∈ cs, x.isWhitespace := fun x hx => h x (by simp [hx])
    simpa [splitWords, splitWordsAux, hc] using ih hrest

/-- Chunks of the hard-split loop: at most `k` characters and nonempty. -/
theorem chunkWord_mem (k : Nat) (hk : 1 ≤ k) :
    ∀ (fuel : Nat) (w l : List Char),
      l ∈ chunkWord k fuel w → l.length ≤ k ∧ l ≠ [] := by
  intro fuel
  induction fuel with
  | zero => intro w l hl; simp [chunkWord] at hl
  | succ fuel ih =>
    intro w l hl
    match w with
    | [] => simp [chunkWord] at hl
    | c :: cs =>
      simp only [chunkWord, List.mem_cons] at hl
      rcases hl with rfl | hl
      · refine ⟨by simp, ?_⟩
        obtain ⟨k', rfl⟩ := Nat.exists_eq_add_of_le hk
        simp [List.take_succ_cons]
      · exact ih _ l hl

/-- Invariant of the greedy wrap loop: if the running line fits in `k`
characters and all pending words are nonempty, every emitted line has at
most `k` characters and is nonempty. -/
theorem wrapWords_mem (k : Nat) (hk : 1 ≤ k) :
    ∀ (ws : List (List Char)) (current : List Char),
      current.length ≤ k → (∀ w ∈ ws, w ≠ []) →
      ∀ l ∈ wrapWords k ws current, l.length ≤ k ∧ l ≠ [] := by
  intro ws
  induction ws with
  | nil =>
    intro current hc _ l hl
    by_cases h : current.isEmpty
    · simp [wrapWords, h] at hl
    · simp only [wrapWords, if_neg h, List.mem_singleton] at hl
      subst hl
      exact ⟨hc, by simpa [List.isEmpty_iff] using h⟩
  | cons w ws ih =>
    intro current hc hws l hl
    have hw : w ≠ [] := hws w (by simp)
    have hrest : ∀ x ∈ ws, x ≠ [] := fun x hx => hws x (by simp [hx])
    simp only [wrapWords] at hl
    by_cases hcand :
        (if current.isEmpty then w else current ++ ' ' :: w).length ≤ k
    · rw [if_pos hcand] at hl
      exact ih _ hcand hrest l hl
    · rw [if_neg hcand] at hl
      have hflush : ∀ x ∈ (if current.isEmpty then ([] : List (List Char))
          else [current]), x.length ≤ k ∧ x ≠ [] := by
        intro x hx
        by_cases h : current.isEmpty
        · simp [h] at hx
        · simp only [if_neg h, List.mem_singleton] at hx
          subst hx
          exact ⟨hc, by simpa [List.isEmpty_iff] using h⟩
      by_cases hbig : k < w.length
      · rw [if_pos hbig] at hl
        rcases List.mem_append.mp hl with hx | hx
        · exact hflush l hx
        · rcases List.mem_append.mp hx with hy | hy
          · exact chunkWord_mem k hk w.length w l hy
          · exact ih [] (by simp) hrest l hy
      · rw [if_neg hbig] at hl
        rcases List.mem_append.mp hl with hx | hx
        · exact hflush l hx
        · exact ih w (Nat.le_of_not_lt hbig) hrest l hx

/-- The last element with a default is a member of a nonempty list. -/
theorem getLastD_mem {α : Type} (d : α) :
    ∀ (l : List α), l ≠ [] → l.getLastD d ∈ l := by
  intro l
  induction l with
  | nil => intro h; exact absurd rfl h
  | cons a t ih =>
    intro _
    cases t with
    | nil => simp
    | cons b t' =>
      have hmem := ih (by simp)
      simp only [List.getLastD] at hmem ⊢
      exact List.mem_cons_of_mem a hmem

/-- After the empty-fallback, every line still fits in `k` characters. -/
theorem linesAfterFallback_le (text : List Char) (k : Nat) (hk : 1 ≤ k) :
    ∀ l ∈ (if (wrapWords k (splitWords text) []).isEmpty
        then [([] : List Char)] else wrapWords k (splitWords text) []),
      l.length ≤ k := by
  intro l hl
  split at hl
  · simp at hl
    subst hl
    simp
  · exact (wrapWords_mem k hk (splitWords text) [] (by simp)
      (fun w hw => splitWordsAux_mem_ne_nil text [] w hw) l hl).1

/-- Length of the clip-and-ellipsis step: at most `maxLines` lines. -/
theorem clipStep_length (lines : List (List Char)) (M : Nat) (hM : 1 ≤ M) :
    (if M < lines.length then
        (lines.take M).dropLast ++
          [((lines.take M).getLastD []).take
              (((lines.take M).getLastD []).length - 1) ++ ['…']]
      else lines.take M).length ≤ M := by
  split
  · simp only [List.length_append, List.length_dropLast, List.length_take,
      List.length_singleton]
    omega
  · simp only [List.length_take]
    omega

/-- Character bound of the clip-and-ellipsis step: if every line fits in
`k` characters so does every clipped line, including the ellipsis line. -/
theorem clipStep_mem (k : Nat) (hk : 1 ≤ k) (lines : List (List Char))
    (hlines : ∀ l ∈ lines, l.length ≤ k) (M : Nat) :
    ∀ l ∈ (if M < lines.length then
        (lines.take M).dropLast ++
          [((lines.take M).getLastD []).take
              (((lines.take M).getLastD []).length - 1) ++ ['…']]
      else lines.take M), l.length ≤ k := by
  intro l hl
  split at hl
  · rcases List.mem_append.mp hl with hx | hx
    · exact hlines l (List.take_subset _ _ (List.dropLast_subset _ hx))
    · have hlast : (((lines.take M).getLastD []).length) ≤ k ∨
          ((lines.take M).getLastD []).length = 0 := by
        rcases eq_or_ne (lines.take M) [] with hnil | hnil
        · right
          simp [hnil]
        · left
          exact hlines _ (List.take_subset _ _ (getLastD_mem [] _ hnil))
      simp only [List.mem_singleton] at hx
      subst hx
      simp only [List.length_append, List.length_take,
        List.length_singleton]
      omega
  · exact hlines l (List.take_subset _ _ hl)

/-- The word-wrap bounds claim (C1) as literally stated is false: a zone
whose height is below twice the padding makes the claimed line-count bound
`floor((zone.h - 2*padding) / round(fontSize*1.2))` negative (here `-1`),
while `wrapAndClamp` always returns at least one line.  Concretely, for the
text `hi`, a 100x10 zone and font size 24 the layout returns one line. -/
theorem claimC1_counterexample :
    ¬ ((((wrapAndClampC ("hi".data) 100 10 24).length : Int) ≤
          ((10 : Int) - 6 * 2).fdiv (((12 * 24 + 5) / 10 : Nat) : Int)) ∧
        ∀ l ∈ wrapAndClampC ("hi".data) 100 10 24,
          (l.length : Int) ≤ (50 * ((100 : Int) - 6 * 2)).fdiv (29 * 24)) := by
  decide

/-- Claim C1, amended as the code forces: both bounds carry the code's
`max(1, _)` clamps — the number of returned lines is at most
`max(1, floor((zone.h - 2*padding) / round(fontSize*1.2)))` and every
returned line has at most
`max(1, floor(max(1, zone.w - 2*padding) / (fontSize*0.58)))` characters
(exact rational arithmetic, `0.58 = 29/50`, `round(f*1.2) = (12f+5)/10`). -/
theorem claimC1_amended (text : List Char) (zw zh : Int) (f : Nat) :
    (wrapAndClampC text zw zh f).length ≤
      (max 1 ((zh - 6 * 2).fdiv (((12 * f + 5) / 10 : Nat) : Int))).toNat ∧
    ∀ l ∈ wrapAndClampC text zw zh f,
      l.length ≤ max 1 ((50 * (max 1 (zw - 6 * 2)).toNat) / (29 * f)) := by
  have hk : 1 ≤ max 1 ((50 * (max 1 (zw - 6 * 2)).toNat) / (29 * f)) :=
    le_max_left _ _
  have hM : 1 ≤ (max 1 ((zh - 6 * 2).fdiv
      (((12 * f + 5) / 10 : Nat) : Int))).toNat := by
    omega
  constructor
  · simp only [wrapAndClampC]
    exact clipStep_length _ _ hM
  · simp only [wrapAndClampC]
    exact clipStep_mem _ hk _ (linesAfterFallback_le text _ hk) _

/-- Claim C8: for empty or whitespace-only input text the layout returns
exactly one line, the empty line, for every zone rectangle and font
size. -/
theorem claimC8 (text : List Char) (zw zh : Int) (f : Nat)
    (hws : ∀ c ∈ text, c.isWhitespace) :
    wrapAndClampC text zw zh f = [[]] := by
  have h0 : splitWords text = [] := splitWords_all_ws text hws
  have hM : 1 ≤ (max 1 ((zh - 6 * 2).fdiv
      (((12 * f + 5) / 10 : Nat) : Int))).toNat := by
    omega
  simp only [wrapAndClampC, h0, wrapWords, List.isEmpty_nil, if_true]
  rw [if_neg (by simp only [List.length_singleton]; omega)]
  exact List.take_of_length_le (by simp only [List.length_singleton]; omega)

/-- Claim C8 witnessed on the empty string with a 100x50 zone and font
size 24. -/
theorem claimC8_witness : wrapAndClampC ("".data) 100 50 24 = [[]] :=
  claimC8 ("".data) 100 50 24 (by decide)

/-- Claim C3: when the greedy word-wrap produces more lines than the
computed maximum, the layout returns exactly `maxLines` lines, the last
returned line ends with the ellipsis character, and its length does not
exceed the length that line had before the replacement. -/
theorem claimC3 (text : List Char) (zw zh : Int) (f : Nat)
    (hover :
      (max 1 ((zh - 6 * 2).fdiv (((12 * f + 5) / 10 : Nat) : Int))).toNat <
        (wrapWords (max 1 ((50 * (max 1 (zw - 6 * 2)).toNat) / (29 * f)))
          (splitWords text) []).length) :
    (wrapAndClampC text zw zh f).length =
      (max 1 ((zh - 6 * 2).fdiv (((12 * f + 5) / 10 : Nat) : Int))).toNat ∧
    ∃ last, (wrapAndClampC text zw zh f).getLast? = some last ∧
      last.getLast? = some '…' ∧
      last.length ≤
        (((wrapWords (max 1 ((50 * (max 1 (zw - 6 * 2)).toNat) / (29 * f)))
            (splitWords text) []).take
          (max 1 ((zh - 6 * 2).fdiv
            (((12 * f + 5) / 10 : Nat) : Int))).toNat).getLastD []).length := by
  have hk : 1 ≤ max 1 ((50 * (max 1 (zw - 6 * 2)).toNat) / (29 * f)) :=
    le_max_left _ _
  have hM : 1 ≤ (max 1 ((zh - 6 * 2).fdiv
      (((12 * f + 5) / 10 : Nat) : Int))).toNat := by
    omega
  have hne : ¬ (wrapWords (max 1 ((50 * (max 1 (zw - 6 * 2)).toNat) / (29 * f)))
      (splitWords text) []).isEmpty := by
    simp only [List.isEmpty_iff]
    intro hnil
    rw [hnil] at hover
    simp at hover
  have hclip :
      ((wrapWords (max 1 ((50 * (max 1 (zw - 6 * 2)).toNat) / (29 * f)))
          (splitWords text) []).take
        (max 1 ((zh - 6 * 2).fdiv
          (((12 * f + 5) / 10 : Nat) : Int))).toNat) ≠ [] := by
    intro hnil
    have := congrArg List.length hnil
    simp only [List.length_take, List.length_nil] at this
    omega
  have hlastmem :
      ((wrapWords (max 1 ((50 * (max 1 (zw - 6 * 2)).toNat) / (29 * f)))
          (splitWords text) []).take
        (max 1 ((zh - 6 * 2).fdiv
          (((12 * f + 5) / 10 : Nat) : Int))).toNat).getLastD [] ∈
      wrapWords (max 1 ((50 * (max 1 (zw - 6 * 2)).toNat) / (29 * f)))
        (splitWords text) [] :=
    List.take_subset _ _ (getLastD_mem [] _ hclip)
  have hlastne :
      ((wrapWords (max 1 ((50 * (max 1 (zw - 6 * 2)).toNat) / (29 * f)))
          (splitWords text) []).take
        (max 1 ((zh - 6 * 2).fdiv
          (((12 * f + 5) / 10 : Nat) : Int))).toNat).getLastD [] ≠ [] :=
    (wrapWords_mem _ hk (splitWords text) [] (by simp)
      (fun w hw => splitWordsAux_mem_ne_nil text [] w hw) _ hlastmem).2
  simp only [wrapAndClampC, if_neg hne, if_pos hover]
  refine ⟨?_, ?_⟩
  · simp only [List.length_append, List.length_dropLast, List.length_take,
      List.length_singleton]
    omega
  · refine ⟨_, List.getLast?_concat _, List.getLast?_concat _, ?_⟩
    have hlen : 1 ≤ (((wrapWords
        (max 1 ((50 * (max 1 (zw - 6 * 2)).toNat) / (29 * f)))
        (splitWords text) []).take
          (max 1 ((zh - 6 * 2).fdiv
            (((12 * f + 5) / 10 : Nat) : Int))).toNat).getLastD []).length :=
      List.length_pos.mpr hlastne
    simp only [List.length_append, List.length_take,
      List.length_singleton]
    omega

/-- Claim C3 witnessed: the text `aaaa bbbb cccc` in a 35x36 zone at font
size 10 wraps to six hard-split chunks, exceeding the two visible lines. -/
theorem claimC3_witness :
    (wrapAndClampC ("aaaa bbbb cccc".data) 35 36 10).length =
      (max 1 (((36 : Int) - 6 * 2).fdiv
        (((12 * 10 + 5) / 10 : Nat) : Int))).toNat ∧
    ∃ last, (wrapAndClampC ("aaaa bbbb cccc".data) 35 36 10).getLast? =
        some last ∧
      last.getLast? = some '…' ∧
      last.length ≤
        (((wrapWords
            (max 1 ((50 * (max 1 ((35 : Int) - 6 * 2)).toNat) / (29 * 10)))
            (splitWords ("aaaa bbbb cccc".data)) []).take
          (max 1 (((36 : Int) - 6 * 2).fdiv
            (((12 * 10 + 5) / 10 : Nat) : Int))).toNat).getLastD []).length :=
  claimC3 ("aaaa bbbb cccc".data) 35 36 10 (by decide)

/-- Claim C9: every text group of the overlay uses a font size clamped into
`[8, 120]`, the per-zone value being `max 8 (min 120 zone.fontSize)` for a
numeric `fontSize` and `24` when it is absent. -/
theorem claimC9 (zones : List Zone) (mapping : List (String × String))
    (row : Row) :
    (∀ zone ∈ zones, ∃ g ∈ buildOverlayGroups zones mapping row,
      g.fontSize = max 8 (min 120 (zone.fontSize.getD 24)) ∧
      (zone.fontSize = none → g.fontSize = 24)) ∧
    ∀ g ∈ buildOverlayGroups zones mapping row,
      8 ≤ g.fontSize ∧ g.fontSize ≤ 120 := by
  constructor
  · intro zone hz
    refine ⟨_, List.mem_map_of_mem _ hz, rfl, ?_⟩
    intro hnone
    simp [hnone]
  · intro g hg
    rcases List.mem_map.mp hg with ⟨zone, _, rfl⟩
    constructor
    · exact le_max_left _ _
    · exact max_le (by omega) (min_le_left _ _)

/-- Claim C9 witnessed on a zone requesting font size 300 (clamped to 120)
and one with no font size (defaulting to 24). -/
theorem claimC9_witness :
    ∃ g ∈ buildOverlayGroups
        [{ id := "a", x := 0, y := 0, w := 100, h := 50, fontSize := some 300,
           align := none, color := none }] [] [],
      g.fontSize = max 8 (min 120 ((some (300 : Int)).getD 24)) ∧
      (some (300 : Int) = none → g.fontSize = 24) :=
  (claimC9
    [{ id := "a", x := 0, y := 0, w := 100, h := 50, fontSize := some 300,
       align := none, color := none }] [] []).1
    { id := "a", x := 0, y := 0, w := 100, h := 50, fontSize := some 300,
      align := none, color := none } (by simp)

/-! ## Lemmas about the association-list map and the archive reader -/

/-- Reading a cons cell: the head binding shadows the tail. -/
theorem mapGet_cons (a : List Nat × List Nat) (t : List (List Nat × List Nat))
    (q : List Nat) :
    mapGet (a :: t) q = if a.1 = q then some a.2 else mapGet t q := by
  simp only [mapGet, List.find?]
  by_cases ha : a.1 = q
  · simp [ha]
  · simp [ha]

/-- `mapSet` on a cons cell whose head has a different key. -/
theorem mapSet_cons_of_ne (a : List Nat × List Nat)
    (t : List (List Nat × List Nat)) (k v : List Nat) (ha : a.1 ≠ k) :
    mapSet (a :: t) k v = a :: mapSet t k v := by
  simp only [mapSet, List.any_cons, decide_eq_true_eq]
  by_cases ht : t.any (fun kv => kv.1 = k)
  · simp [ha, ht]
  · simp [ha, ht]

/-- `mapSet` on a cons cell whose head has the written key. -/
theorem mapSet_cons_of_eq (a : List Nat × List Nat)
    (t : List (List Nat × List Nat)) (k v : List Nat) (ha : a.1 = k) :
    mapSet (a :: t) k v =
      (k, v) :: t.map (fun kv => if kv.1 = k then (k, v) else kv) := by
  simp [mapSet, List.any_cons, ha]

/-- The overwrite pass leaves every other key's first binding unchanged. -/
theorem mapGet_map_other (t : List (List Nat × List Nat)) (k v q : List Nat)
    (hq : q ≠ k) :
    mapGet (t.map (fun kv => if kv.1 = k then (k, v) else kv)) q =
      mapGet t q := by
  induction t with
  | nil => rfl
  | cons a t ih =>
    simp only [List.map_cons]
    by_cases ha : a.1 = k
    · rw [mapGet_cons, mapGet_cons, if_pos ha]
      have h1 : ¬ ((k, v).1 = q) := fun h => hq h.symm
      have h2 : ¬ (a.1 = q) := fun h => hq (ha ▸ h).symm
      rw [if_neg h1, if_neg h2, ih]
    · rw [if_neg ha, mapGet_cons, mapGet_cons, ih]

/-- Setting a key then reading it back yields the new value. -/
theorem mapGet_mapSet_self :
    ∀ (m : List (List Nat × List Nat)) (k v : List Nat),
      mapGet (mapSet m k v) k = some v := by
  intro m
  induction m with
  | nil => intro k v; simp [mapSet, mapGet]
  | cons a t ih =>
    intro k v
    by_cases ha : a.1 = k
    · rw [mapSet_cons_of_eq a t k v ha, mapGet_cons, if_pos rfl]
    · rw [mapSet_cons_of_ne a t k v ha, mapGet_cons, if_neg ha, ih]

/-- Setting one key leaves the bindings of every other key unchanged. -/
theorem mapGet_mapSet_other :
    ∀ (m : List (List Nat × List Nat)) (k q v : List Nat), q ≠ k →
      mapGet (mapSet m k v) q = mapGet m q := by
  intro m
  induction m with
  | nil =>
    intro k q v hq
    have h1 : ¬ ((k, v).1 = q) := fun h => hq h.symm
    have h0 : mapSet [] k v = [(k, v)] := rfl
    rw [h0, mapGet_cons, if_neg h1]
  | cons a t ih =>
    intro k q v hq
    by_cases ha : a.1 = k
    · rw [mapSet_cons_of_eq a t k v ha, mapGet_cons, mapGet_cons]
      have h1 : ¬ ((k, v).1 = q) := fun h => hq h.symm
      have h2 : ¬ (a.1 = q) := fun h => hq (ha ▸ h).symm
      rw [if_neg h1, if_neg h2, mapGet_map_other t k v q hq]
    · rw [mapSet_cons_of_ne a t k v ha, mapGet_cons, mapGet_cons, ih k q v hq]

/-- Keys of a map after `mapSet`: unchanged when the key was present,
the key appended otherwise. -/
theorem mapSet_keys (m : List (List Nat × List Nat)) (k v : List Nat) :
    (mapSet m k v).map Prod.fst =
      if m.any (fun kv => kv.1 = k) then m.map Prod.fst
      else m.map Prod.fst ++ [k] := by
  simp only [mapSet]
  split
  · rw [List.map_map]
    apply List.map_congr_left
    intro kv _
    by_cases h : kv.1 = k
    · simp [h]
    · simp [h]
  · simp

/-- `mapSet` preserves distinctness of keys. -/
theorem mapSet_keys_nodup (m : List (List Nat × List Nat)) (k v : List Nat)
    (h : (m.map Prod.fst).Nodup) : ((mapSet m k v).map Prod.fst).Nodup := by
  rw [mapSet_keys]
  split
  · exact h
  · rename_i hany
    have hk : k ∉ m.map Prod.fst := by
      intro hmem
      rcases List.mem_map.mp hmem with ⟨kv, hkv, hfst⟩
      exact hany (List.any_eq_true.mpr ⟨kv, hkv, by simp [hfst]⟩)
    simp [List.nodup_append, h, hk]

/-- A key with a binding in a distinct-key map has exactly one binding. -/
theorem mapGet_some_filter_length :
    ∀ (m : List (List Nat × List Nat)) (k v : List Nat),
      (m.map Prod.fst).Nodup → mapGet m k = some v →
      (m.filter (fun kv => kv.1 = k)).length = 1 := by
  intro m
  induction m with
  | nil => intro k v _ h; simp [mapGet] at h
  | cons a t ih =>
    intro k v hnd h
    rw [mapGet_cons] at h
    by_cases ha : a.1 = k
    · have hnotin : a.1 ∉ t.map Prod.fst := (List.nodup_cons.mp hnd).1
      have hfilter : t.filter (fun kv => kv.1 = k) = [] := by
        rw [List.filter_eq_nil_iff]
        intro kv hkv
        simp only [decide_eq_true_eq]
        intro hk
        exact hnotin (ha ▸ hk ▸ List.mem_map_of_mem Prod.fst hkv)
      simp [List.filter_cons, ha, hfilter]
    · rw [if_neg ha] at h
      have := ih k v (List.nodup_cons.mp hnd).2 h
      simp [List.filter_cons, ha, this]

/-- Skipped entries (directory markers, non-image extensions) leave the
map untouched. -/
theorem addEntry_of_not_retained (inflateRaw : List Nat → List Nat)
    (buf : List Nat) (m : List (List Nat × List Nat)) (e : ZipEntry)
    (h : retainEntry e = false) : addEntry inflateRaw buf m e = .ok m := by
  by_cases hdir : e.fileName.getLast? = some 47
  · simp [addEntry, hdir]
  · have hext : extOf (getBaseName e.fileName) ∉ IMAGE_EXTENSIONS := by
      intro hmem
      have hcopy := h
      simp [retainEntry, beq_iff_eq, hdir, hmem] at hcopy
    simp [addEntry, hdir, hext]

/-- Retained entries extract and insert under their base name. -/
theorem addEntry_of_retained (inflateRaw : List Nat → List Nat)
    (buf : List Nat) (m : List (List Nat × List Nat)) (e : ZipEntry)
    (h : retainEntry e = true) :
    addEntry inflateRaw buf m e =
      match extractEntryBuffer inflateRaw buf e with
      | .error err => .error err
      | .ok bytes => .ok (mapSet m (getBaseName e.fileName) bytes) := by
  have hdir : ¬ e.fileName.getLast? = some 47 := by
    intro hd
    simp [retainEntry, hd] at h
  have hmem : extOf (getBaseName e.fileName) ∈ IMAGE_EXTENSIONS := by
    by_contra hmem
    simp [retainEntry, beq_iff_eq, hdir, hmem] at h
  simp [addEntry, hdir, hmem]

/-- An `ok` step of the entry loop either skipped the entry or performed a
`mapSet` with its extracted bytes. -/
theorem addEntry_ok_cases (inflateRaw : List Nat → List Nat)
    (buf : List Nat) (m m1 : List (List Nat × List Nat)) (e : ZipEntry)
    (h : addEntry inflateRaw buf m e = .ok m1) :
    m1 = m ∨ ∃ bytes, retainEntry e = true ∧
      extractEntryBuffer inflateRaw buf e = .ok bytes ∧
      m1 = mapSet m (getBaseName e.fileName) bytes := by
  by_cases hret : retainEntry e = true
  · rw [addEntry_of_retained inflateRaw buf m e hret] at h
    cases hex : extractEntryBuffer inflateRaw buf e with
    | error err => rw [hex] at h; exact absurd h (by simp)
    | ok bytes =>
      rw [hex] at h
      simp only [Except.ok.injEq] at h
      exact Or.inr ⟨bytes, hret, rfl, h.symm⟩
  · rw [addEntry_of_not_retained inflateRaw buf m e
      (Bool.not_eq_true _ ▸ hret)] at h
    simp only [Except.ok.injEq] at h
    exact Or.inl h.symm

/-- The entry loop preserves distinctness of map keys. -/
theorem buildMap_nodup (inflateRaw : List Nat → List Nat) (buf : List Nat) :
    ∀ (es : List ZipEntry) (m0 m : List (List Nat × List Nat)),
      buildMap inflateRaw buf es m0 = .ok m →
      (m0.map Prod.fst).Nodup → (m.map Prod.fst).Nodup := by
  intro es
  induction es with
  | nil =>
    intro m0 m h hnd
    simp only [buildMap, Except.ok.injEq] at h
    exact h ▸ hnd
  | cons e es ih =>
    intro m0 m h hnd
    simp only [buildMap] at h
    cases hadd : addEntry inflateRaw buf m0 e with
    | error err => rw [hadd] at h; exact absurd h (by simp)
    | ok m1 =>
      rw [hadd] at h
      rcases addEntry_ok_cases inflateRaw buf m0 m1 e hadd with rfl | ⟨bytes, _, _, rfl⟩
      · exact ih _ m h hnd
      · exact ih _ m h (mapSet_keys_nodup m0 _ bytes hnd)

/-- Skipping every entry leaves the accumulator unchanged. -/
theorem buildMap_of_none_retained (inflateRaw : List Nat → List Nat)
    (buf : List Nat) :
    ∀ (es : List ZipEntry) (m0 : List (List Nat × List Nat)),
      (∀ e ∈ es, retainEntry e = false) →
      buildMap inflateRaw buf es m0 = .ok m0 := by
  intro es
  induction es with
  | nil => intro m0 _; rfl
  | cons e es ih =>
    intro m0 h
    have he : retainEntry e = false := h e (by simp)
    have hrest : ∀ x ∈ es, retainEntry x = false := fun x hx => h x (by simp [hx])
    simp only [buildMap, addEntry_of_not_retained inflateRaw buf m0 e he]
    exact ih m0 hrest

/-- Last-write-wins through the entry loop: after a successful pass, the
binding of a key is the extracted payload of the last retained entry whose
base name is that key (or the initial binding when no such entry exists). -/
theorem buildMap_get (inflateRaw : List Nat → List Nat) (buf : List Nat) :
    ∀ (es : List ZipEntry) (m0 m : List (List Nat × List Nat)),
      buildMap inflateRaw buf es m0 = .ok m →
      ∀ k, (es.filter (fun e => retainEntry e &&
              (getBaseName e.fileName == k)) = [] ∧
            mapGet m k = mapGet m0 k) ∨
        (∃ e bytes,
          (es.filter (fun e => retainEntry e &&
            (getBaseName e.fileName == k))).getLast? = some e ∧
          extractEntryBuffer inflateRaw buf e = .ok bytes ∧
          mapGet m k = some bytes) := by
  intro es
  induction es with
  | nil =>
    intro m0 m h k
    simp only [buildMap, Except.ok.injEq] at h
    exact Or.inl ⟨rfl, h ▸ rfl⟩
  | cons e es ih =>
    intro m0 m h k
    simp only [buildMap] at h
    cases hadd : addEntry inflateRaw buf m0 e with
    | error err => rw [hadd] at h; exact absurd h (by simp)
    | ok m1 =>
      rw [hadd] at h
      by_cases hret : retainEntry e = true
      · rw [addEntry_of_retained inflateRaw buf m0 e hret] at hadd
        cases hex : extractEntryBuffer inflateRaw buf e with
        | error err => rw [hex] at hadd; exact absurd hadd (by simp)
        | ok bytes =>
          rw [hex] at hadd
          simp only [Except.ok.injEq] at hadd
          by_cases hkey : getBaseName e.fileName = k
          · have hpe : (retainEntry e &&
                (getBaseName e.fileName == k)) = true := by
              simp [hret, hkey]
            rcases ih m1 m h k with ⟨hfil, hget⟩ | ⟨e', bytes', hlast, hex', hget⟩
            · refine Or.inr ⟨e, bytes, ?_, hex, ?_⟩
              · simp [List.filter_cons, hpe, hfil]
              · rw [hget, ← hadd, ← hkey]
                exact mapGet_mapSet_self m0 _ bytes
            · refine Or.inr ⟨e', bytes', ?_, hex', hget⟩
              have hne : es.filter (fun e => retainEntry e &&
                  (getBaseName e.fileName == k)) ≠ [] := by
                intro h0
                rw [h0] at hlast
                simp at hlast
              rw [List.filter_cons, if_pos hpe]
              cases hfes : es.filter (fun e => retainEntry e &&
                  (getBaseName e.fileName == k)) with
              | nil => exact absurd hfes hne
              | cons x xs =>
                rw [hfes] at hlast
                rw [List.getLast?_cons_cons]
                exact hlast
          · have hpe : (retainEntry e &&
                (getBaseName e.fileName == k)) = false := by
              simp [hkey]
            rcases ih m1 m h k with ⟨hfil, hget⟩ | ⟨e', bytes', hlast, hex', hget⟩
            · refine Or.inl ⟨?_, ?_⟩
              · simp [List.filter_cons, hpe, hfil]
              · rw [hget, ← hadd]
                exact mapGet_mapSet_other m0 _ k bytes
                  (fun hq => hkey hq.symm)
            · refine Or.inr ⟨e', bytes', ?_, hex', hget⟩
              rw [List.filter_cons, if_neg (by simp [hpe])]
              exact hlast
      · have hadd0 : addEntry inflateRaw buf m0 e = .ok m0 :=
          addEntry_of_not_retained inflateRaw buf m0 e (by simpa using hret)
        rw [hadd0] at hadd
        simp only [Except.ok.injEq] at hadd
        subst hadd
        have hpe : (retainEntry e &&
            (getBaseName e.fileName == k)) = false := by
          simp [Bool.not_eq_true _ ▸ hret]
        rcases ih m0 m h k with ⟨hfil, hget⟩ | ⟨e', bytes', hlast, hex', hget⟩
        · refine Or.inl ⟨?_, hget⟩
          simp [List.filter_cons, hpe, hfil]
        · refine Or.inr ⟨e', bytes', ?_, hex', hget⟩
          rw [List.filter_cons, if_neg (by simp [hpe])]
          exact hlast

/-- Members of a map after `mapSet`: the written binding or an old one. -/
theorem mapSet_mem (m : List (List Nat × List Nat)) (k v : List Nat) :
    ∀ kv ∈ mapSet m k v, kv = (k, v) ∨ kv ∈ m := by
  intro kv hkv
  simp only [mapSet] at hkv
  split at hkv
  · rcases List.mem_map.mp hkv with ⟨kv', hkv', heq⟩
    by_cases h : kv'.1 = k
    · rw [if_pos h] at heq
      exact Or.inl heq.symm
    · rw [if_neg h] at heq
      exact Or.inr (heq ▸ hkv')
  · rcases List.mem_append.mp hkv with h | h
    · exact Or.inr h
    · exact Or.inl (List.mem_singleton.mp h)

/-- Every binding produced by the entry loop comes from a retained entry:
its key is that entry's base name (case preserved, split on forward slashes
only) and its value the entry's extracted bytes. -/
theorem buildMap_mem (inflateRaw : List Nat → List Nat) (buf : List Nat) :
    ∀ (es : List ZipEntry) (m0 m : List (List Nat × List Nat)),
      buildMap inflateRaw buf es m0 = .ok m →
      ∀ kv ∈ m, kv ∈ m0 ∨ ∃ e ∈ es, retainEntry e = true ∧
        kv.1 = getBaseName e.fileName ∧
        extractEntryBuffer inflateRaw buf e = .ok kv.2 := by
  intro es
  induction es with
  | nil =>
    intro m0 m h kv hkv
    simp only [buildMap, Except.ok.injEq] at h
    exact Or.inl (h ▸ hkv)
  | cons e es ih =>
    intro m0 m h kv hkv
    simp only [buildMap] at h
    cases hadd : addEntry inflateRaw buf m0 e with
    | error err => rw [hadd] at h; exact absurd h (by simp)
    | ok m1 =>
      rw [hadd] at h
      rcases ih m1 m h kv hkv with hin | ⟨e', he', hret', hkey', hex'⟩
      · rcases addEntry_ok_cases inflateRaw buf m0 m1 e hadd with
          rfl | ⟨bytes, hret, hex, rfl⟩
        · exact Or.inl hin
        · rcases mapSet_mem m0 _ bytes kv hin with rfl | hin0
          · exact Or.inr ⟨e, by simp, hret, rfl, hex⟩
          · exact Or.inl hin0
      · exact Or.inr ⟨e', by simp [he'], hret', hkey', hex'⟩

/-- A window with no trailer signature makes the backward scan fail. -/
theorem findEocdAux_eq_none (buf : List Nat) (lo : Nat) :
    ∀ i, lo ≤ i →
      (∀ j, lo ≤ j → j ≤ i → readUInt32LE buf j ≠ 0x06054b50) →
      findEocdAux buf lo i = none := by
  intro i
  induction i with
  | zero =>
    intro hlo h
    simp only [findEocdAux]
    rw [if_neg (h 0 hlo (le_refl 0))]
  | succ i ih =>
    intro hlo h
    simp only [findEocdAux]
    rw [if_neg (h (i + 1) hlo (le_refl _))]
    by_cases hstop : i + 1 ≤ lo
    · rw [if_pos hstop]
    · rw [if_neg hstop]
      exact ih (by omega) (fun j h1 h2 => h j h1 (by omega))

/-- Claim C6: the error taxonomy of the inline archive reader — stored
entries (method 0) pass their payload slice through unchanged, deflated
entries (method 8) are raw-inflated, any other method fails with the
unsupported-codec error, a buffer whose bounded backward scan finds no
end-of-central-directory signature fails with the corrupt-archive error,
and an archive whose retained image entries are empty after filtering fails
with the empty-archive error. -/
theorem claimC6 :
    (∀ (inflateRaw : List Nat → List Nat) (buf : List Nat) (e : ZipEntry),
      readUInt32LE buf e.localHeaderOffset = 0x04034b50 →
      e.compressionMethod = 0 →
      extractEntryBuffer inflateRaw buf e =
        .ok ((buf.drop (e.localHeaderOffset + 30 +
            readUInt16LE buf (e.localHeaderOffset + 26) +
            readUInt16LE buf (e.localHeaderOffset + 28))).take
          e.compressedSize)) ∧
    (∀ (inflateRaw : List Nat → List Nat) (buf : List Nat) (e : ZipEntry),
      readUInt32LE buf e.localHeaderOffset = 0x04034b50 →
      e.compressionMethod = 8 →
      extractEntryBuffer inflateRaw buf e =
        .ok (inflateRaw ((buf.drop (e.localHeaderOffset + 30 +
            readUInt16LE buf (e.localHeaderOffset + 26) +
            readUInt16LE buf (e.localHeaderOffset + 28))).take
          e.compressedSize))) ∧
    (∀ (inflateRaw : List Nat → List Nat) (buf : List Nat) (e : ZipEntry),
      readUInt32LE buf e.localHeaderOffset = 0x04034b50 →
      e.compressionMethod ≠ 0 → e.compressionMethod ≠ 8 →
      extractEntryBuffer inflateRaw buf e =
        .error (.unsupportedCompression e.fileName)) ∧
    (∀ buf : List Nat,
      (∀ i, buf.length - 22 - 65535 ≤ i → i ≤ buf.length - 22 →
        readUInt32LE buf i ≠ 0x06054b50) →
      parseZipEntries buf = .error .eocdNotFound) ∧
    (∀ (inflateRaw : List Nat → List Nat) (buf : List Nat)
        (entries : List ZipEntry),
      parseZipEntries buf = .ok entries →
      (∀ e ∈ entries, retainEntry e = false) →
      parseImagesZip inflateRaw buf = .error .emptyArchive) := by
  refine ⟨?_, ?_, ?_, ?_, ?_⟩
  · intro inflateRaw buf e hsig hm
    simp [extractEntryBuffer, hsig, hm]
  · intro inflateRaw buf e hsig hm
    simp [extractEntryBuffer, hsig, hm]
  · intro inflateRaw buf e hsig hm0 hm8
    simp [extractEntryBuffer, hsig, hm0, hm8]
  · intro buf h
    by_cases hlen : buf.length < 22
    · simp [parseZipEntries, hlen]
    · have hscan : findEocdAux buf (buf.length - 22 - 65535)
          (buf.length - 22) = none :=
        findEocdAux_eq_none buf _ _ (by omega)
          (fun j h1 h2 => h j h1 h2)
      simp [parseZipEntries, hlen, hscan]
  · intro inflateRaw buf entries hpe hnone
    simp only [parseImagesZip, hpe]
    rw [buildMap_of_none_retained inflateRaw buf entries [] hnone]
    simp

set_option maxRecDepth 1000000 in
/-- Claim C6 witnessed on concrete archives: a stored entry passes its
payload through, a deflated entry goes through `inflateRaw`, method 9 fails
as unsupported, the empty buffer has no trailer, and an archive holding
only `readme.txt` fails as empty after filtering. -/
theorem claimC6_witness :
    extractEntryBuffer (fun b => b) zipPhotoLower entryPhotoLower =
      .ok ((zipPhotoLower.drop (entryPhotoLower.localHeaderOffset + 30 +
        readUInt16LE zipPhotoLower (entryPhotoLower.localHeaderOffset + 26) +
        readUInt16LE zipPhotoLower
          (entryPhotoLower.localHeaderOffset + 28))).take
        entryPhotoLower.compressedSize) ∧
    extractEntryBuffer (fun b => b) zipDeflated entryDeflated =
      .ok ((fun b => b) ((zipDeflated.drop (entryDeflated.localHeaderOffset +
        30 + readUInt16LE zipDeflated (entryDeflated.localHeaderOffset + 26) +
        readUInt16LE zipDeflated
          (entryDeflated.localHeaderOffset + 28))).take
        entryDeflated.compressedSize)) ∧
    extractEntryBuffer (fun b => b) zipBadMethod entryBadMethod =
      .error (.unsupportedCompression entryBadMethod.fileName) ∧
    parseZipEntries [] = .error .eocdNotFound ∧
    parseImagesZip (fun b => b) zipTxt = .error .emptyArchive := by
  refine ⟨claimC6.1 (fun b => b) zipPhotoLower entryPhotoLower (by decide)
      (by decide),
    claimC6.2.1 (fun b => b) zipDeflated entryDeflated (by decide) (by decide),
    claimC6.2.2.1 (fun b => b) zipBadMethod entryBadMethod (by decide)
      (by decide) (by decide),
    claimC6.2.2.2.1 []
      (fun i _ h2 => by
        have h0 : i = 0 := Nat.le_zero.mp h2
        subst h0
        decide),
    claimC6.2.2.2.2 (fun b => b) zipTxt [entryTxt] (by decide) (by decide)⟩

set_option maxRecDepth 1000000 in
/-- Claim C2 as stated is false: the inline reader keys its map by
`getBaseName` — the final forward-slash segment with case preserved, no
lowercasing and no backslash handling — so the archive entry
`pics/Photo 01.JPG` is keyed `Photo 01.JPG`, not the lowercase final
segment `photo 01.jpg`; and the claimed particular case fails: the CSV
value `Photo 01.JPG`, keyed the same way (as in the sibling preview route),
does not resolve an entry stored as `pics/photo 01.jpg`. -/
theorem claimC2_counterexample :
    parseImagesZip (fun b => b) zipPhotoMixed =
      .ok [(strB ("Photo 01.JPG"), [1, 2, 3])] ∧
    strB ("Photo 01.JPG") ≠ strB ("photo 01.jpg") ∧
    parseImagesZip (fun b => b) zipPhotoLower =
      .ok [(strB ("photo 01.jpg"), [1, 2, 3])] ∧
    mapGet [(strB ("photo 01.jpg"), [1, 2, 3])]
      (getBaseName (strB ("Photo 01.JPG"))) = none := by
  decide

/-- Claim C2, amended as the code forces: the key under which the inline
reader's result map stores each retained entry is `getBaseName` of the entry
name — the final segment after splitting on forward slashes only, with its
original case preserved (backslashes are not slashes and nothing is
lowercased) — and the stored value is that entry's extracted bytes. -/
theorem claimC2_amended (inflateRaw : List Nat → List Nat) (buf : List Nat)
    (entries : List ZipEntry) (m : List (List Nat × List Nat))
    (hpe : parseZipEntries buf = .ok entries)
    (hpi : parseImagesZip inflateRaw buf = .ok m) :
    ∀ kv ∈ m, ∃ e ∈ entries, retainEntry e = true ∧
      kv.1 = getBaseName e.fileName ∧
      extractEntryBuffer inflateRaw buf e = .ok kv.2 := by
  intro kv hkv
  simp only [parseImagesZip, hpe] at hpi
  split at hpi
  · exact absurd hpi (by simp)
  · rename_i images hbm
    split at hpi
    · exact absurd hpi (by simp)
    · simp only [Except.ok.injEq] at hpi
      subst hpi
      rcases buildMap_mem inflateRaw buf entries [] _ hbm kv hkv with hin | h
      · simp at hin
      · exact h

set_option maxRecDepth 1000000 in
/-- Claim C2 (amended) witnessed on the archive holding
`pics/photo 01.jpg`. -/
theorem claimC2_amended_witness :
    ∃ e ∈ [entryPhotoLower], retainEntry e = true ∧
      (strB ("photo 01.jpg"), ([1, 2, 3] : List Nat)).1 =
        getBaseName e.fileName ∧
      extractEntryBuffer (fun b => b) zipPhotoLower e =
        .ok (strB ("photo 01.jpg"), ([1, 2, 3] : List Nat)).2 :=
  claimC2_amended (fun b => b) zipPhotoLower [entryPhotoLower]
    [(strB ("photo 01.jpg"), [1, 2, 3])] (by decide) (by decide)
    (strB ("photo 01.jpg"), [1, 2, 3]) (by decide)

/-- Claim C7: when at least two retained archive entries normalize to the
same key, the result map binds that key to the decompressed bytes of the
entry encountered last in directory order, and holds exactly one binding
for the key. -/
theorem claimC7 (inflateRaw : List Nat → List Nat) (buf : List Nat)
    (entries : List ZipEntry) (m : List (List Nat × List Nat)) (k : List Nat)
    (hpe : parseZipEntries buf = .ok entries)
    (hpi : parseImagesZip inflateRaw buf = .ok m)
    (hdup : 2 ≤ (entries.filter (fun e => retainEntry e &&
        (getBaseName e.fileName == k))).length) :
    ∃ e bytes,
      (entries.filter (fun e => retainEntry e &&
        (getBaseName e.fileName == k))).getLast? = some e ∧
      extractEntryBuffer inflateRaw buf e = .ok bytes ∧
      mapGet m k = some bytes ∧
      (m.filter (fun kv => kv.1 = k)).length = 1 := by
  simp only [parseImagesZip, hpe] at hpi
  split at hpi
  · exact absurd hpi (by simp)
  · rename_i images hbm
    split at hpi
    · exact absurd hpi (by simp)
    · simp only [Except.ok.injEq] at hpi
      subst hpi
      rcases buildMap_get inflateRaw buf entries [] _ hbm k with
        ⟨hfil, _⟩ | ⟨e, bytes, hlast, hex, hget⟩
      · rw [hfil] at hdup
        simp at hdup
      · have hnd : (images.map Prod.fst).Nodup :=
          buildMap_nodup inflateRaw buf entries [] _ hbm (by simp)
        exact ⟨e, bytes, hlast, hex, hget,
          mapGet_some_filter_length _ k bytes hnd hget⟩

set_option maxRecDepth 1000000 in
/-- Claim C7 witnessed on an archive holding `a/x.png` (payload `[9]`) and
`b/x.png` (payload `[7]`): the map binds `x.png` to the later `[7]`. -/
theorem claimC7_witness :
    ∃ e bytes,
      ([entryDupA, entryDupB].filter
        (fun e => retainEntry e &&
          (getBaseName e.fileName == strB ("x.png")))).getLast? = some e ∧
      extractEntryBuffer (fun b => b) zipDup e = .ok bytes ∧
      mapGet [(strB ("x.png"), [7])] (strB ("x.png")) = some bytes ∧
      ([(strB ("x.png"), ([7] : List Nat))].filter
        (fun kv => kv.1 = strB ("x.png"))).length = 1 :=
  claimC7 (fun b => b) zipDup [entryDupA, entryDupB]
    [(strB ("x.png"), [7])] (strB ("x.png"))
    (by decide) (by decide) (by decide)

/-! ## Lemmas about the batch pipeline -/

/-- A successful row render is named by the row index only. -/
theorem renderOne_name (dims : List Nat → Option (Nat × Nat))
    (renderRow : Nat → Nat → List Zone → List (String × String) → Row →
      List Nat → List Nat)
    (zones : List Zone) (mapping : List (String × String))
    (imageColumn : String) (imageMap : Option (List (List Nat × List Nat)))
    (templateBuffer : Option (List Nat)) (i : Nat) (row : Row)
    (entry : String × List Nat)
    (h : renderOne dims renderRow zones mapping imageColumn imageMap
      templateBuffer i row = .ok entry) :
    entry.1 = "images/" ++ pad4 (i + 1) ++ ".png" := by
  simp only [renderOne] at h
  split at h
  · exact absurd h (by simp)
  · split at h
    · split at h
      · exact absurd h (by simp)
      · simp only [Except.ok.injEq] at h
        subst h
        rfl
    · exact absurd h (by simp)

/-- A clean pass of the row loop renders every row in order, one archive
entry per row, the `j`-th entry being the successful render of the `j`-th
row at index `i + j`. -/
theorem renderRows_spec (dims : List Nat → Option (Nat × Nat))
    (renderRow : Nat → Nat → List Zone → List (String × String) → Row →
      List Nat → List Nat)
    (zones : List Zone) (mapping : List (String × String))
    (imageColumn : String) (imageMap : Option (List (List Nat × List Nat)))
    (templateBuffer : Option (List Nat)) :
    ∀ (rows : List Row) (i : Nat) (es : List (String × List Nat)),
      renderRows dims renderRow zones mapping imageColumn imageMap
        templateBuffer i rows = (es, none) →
      es.length = rows.length ∧
      ∀ j row, rows[j]? = some row →
        ∃ entry, renderOne dims renderRow zones mapping imageColumn imageMap
          templateBuffer (i + j) row = .ok entry ∧ es[j]? = some entry := by
  intro rows
  induction rows with
  | nil =>
    intro i es h
    simp only [renderRows, Prod.mk.injEq] at h
    refine ⟨by simp [← h.1], ?_⟩
    intro j row hj
    simp at hj
  | cons row rest ih =>
    intro i es h
    simp only [renderRows] at h
    cases hone : renderOne dims renderRow zones mapping imageColumn imageMap
        templateBuffer i row with
    | error e =>
      rw [hone] at h
      simp only [Prod.mk.injEq] at h
      exact absurd h.2 (by simp)
    | ok entry =>
      rw [hone] at h
      cases hrec : renderRows dims renderRow zones mapping imageColumn
          imageMap templateBuffer (i + 1) rest with
      | mk es' r =>
        rw [hrec] at h
        simp only [Prod.mk.injEq] at h
        rcases h with ⟨hes, hr⟩
        subst hes
        subst hr
        rcases ih (i + 1) es' hrec with ⟨hlen, hspec⟩
        refine ⟨by simp [hlen], ?_⟩
        intro j r hj
        cases j with
        | zero =>
          simp only [List.getElem?_cons_zero, Option.some.injEq] at hj
          subst hj
          exact ⟨entry, by simpa using hone, by simp⟩
        | succ j' =>
          simp only [List.getElem?_cons_succ] at hj
          rcases hspec j' r hj with ⟨entry', hone', hes'⟩
          exact ⟨entry', by
            have : i + 1 + j' = i + (j' + 1) := by omega
            rw [← this]
            exact hone', by simpa using hes'⟩

/-- Success of the batch tail: the archive is the per-row image entries in
row order followed by `output.csv`, each image entry the successful render
of its row, named by its position. -/
theorem runBatch_ok (dims : List Nat → Option (Nat × Nat))
    (renderRow : Nat → Nat → List Zone → List (String × String) → Row →
      List Nat → List Nat)
    (unparse : List Row → List Nat)
    (zones : List Zone) (mapping : List (String × String))
    (imageColumn : String) (imageMap : Option (List (List Nat × List Nat)))
    (templateBuffer : Option (List Nat)) (rows : List Row)
    (es : List (String × List Nat))
    (h : (runBatch dims renderRow unparse zones mapping imageColumn imageMap
      templateBuffer rows).response = .ok es) :
    ∃ imgs, es = imgs ++ [("output.csv", unparse rows)] ∧
      imgs.length = rows.length ∧
      ∀ j row, rows[j]? = some row →
        ∃ entry, renderOne dims renderRow zones mapping imageColumn imageMap
            templateBuffer j row = .ok entry ∧
          imgs[j]? = some entry ∧
          entry.1 = "images/" ++ pad4 (j + 1) ++ ".png" := by
  simp only [runBatch] at h
  cases hrr : renderRows dims renderRow zones mapping imageColumn imageMap
      templateBuffer 0 rows with
  | mk entries errOpt =>
    rw [hrr] at h
    cases errOpt with
    | some e => simp at h
    | none =>
      simp only [Except.ok.injEq] at h
      subst h
      rcases renderRows_spec dims renderRow zones mapping imageColumn imageMap
        templateBuffer rows 0 entries hrr with ⟨hlen, hspec⟩
      refine ⟨entries, rfl, hlen, ?_⟩
      intro j row hj
      rcases hspec j row hj with ⟨entry, hone, hes⟩
      rw [Nat.zero_add] at hone
      exact ⟨entry, hone, hes,
        renderOne_name dims renderRow zones mapping imageColumn imageMap
          templateBuffer j row entry hone⟩

/-- Claim C4: a successful batch run over the filtered CSV rows produces an
archive holding exactly one image entry per row, in row order, named by the
zero-padded one-based row position (`images/0001.png`, ...), each entry
being the render of its row — the name depends on the position only — with
the re-serialized CSV appended last. -/
theorem claimC4 (dims : List Nat → Option (Nat × Nat))
    (renderRow : Nat → Nat → List Zone → List (String × String) → Row →
      List Nat → List Nat)
    (unparse : List Row → List Nat) (inflateRaw : List Nat → List Nat)
    (req : GenRequest) (es : List (String × List Nat))
    (h : (generatePOST dims renderRow unparse inflateRaw req).response =
      .ok es) :
    ∃ csv zones mapping imageMap templateBuffer, req.csv = some csv ∧
      req.zones = some zones ∧ req.mapping = some mapping ∧
      ∃ imgs,
        es = imgs ++ [("output.csv",
          unparse (csv.data.filter (fun row => row ≠ [])))] ∧
        imgs.length = (csv.data.filter (fun row => row ≠ [])).length ∧
        ∀ j row, (csv.data.filter (fun row => row ≠ []))[j]? = some row →
          ∃ entry, renderOne dims renderRow zones mapping
              (effImageColumn req.imageColumn) imageMap templateBuffer j
              row = .ok entry ∧
            imgs[j]? = some entry ∧
            entry.1 = "images/" ++ pad4 (j + 1) ++ ".png" := by
  simp only [generatePOST] at h
  cases hcsv : req.csv with
  | none => rw [hcsv] at h; simp [errResult] at h
  | some csv =>
    rw [hcsv] at h
    cases hzones : req.zones with
    | none => rw [hzones] at h; simp [errResult] at h
    | some zones =>
      rw [hzones] at h
      cases hmapping : req.mapping with
      | none => rw [hmapping] at h; simp [errResult] at h
      | some mapping =>
        rw [hmapping] at h
        simp only at h
        split at h
        · simp [errResult] at h
        · split at h
          · simp [errResult] at h
          · split at h
            · simp [errResult] at h
            · split at h
              · simp [errResult] at h
              · split at h
                · simp [errResult] at h
                · split at h
                  · simp [errResult] at h
                  · split at h
                    · simp [errResult] at h
                    · split at h
                      · simp [errResult] at h
                      · split at h
                        · simp [errResult] at h
                        · split at h
                          · simp [errResult] at h
                          · split at h
                            · split at h
                              · simp [errResult] at h
                              · rename_i imageMap _
                                exact ⟨csv, zones, mapping, some imageMap,
                                  none, rfl, rfl, rfl,
                                  runBatch_ok dims renderRow unparse zones
                                    mapping _ _ _ _ es h⟩
                            · split at h
                              · rename_i t _
                                exact ⟨csv, zones, mapping, none,
                                  some t.bytes, rfl, rfl, rfl,
                                  runBatch_ok dims renderRow unparse zones
                                    mapping _ _ _ _ es h⟩
                              · simp [errResult] at h

set_option maxRecDepth 1000000 in
/-- Claim C4 witnessed: a two-row template-mode request produces the
archive `images/0001.png`, `images/0002.png`, `output.csv` in row order. -/
theorem claimC4_witness :
    ∃ csv zones mapping imageMap templateBuffer,
      reqTemplateOk.csv = some csv ∧ reqTemplateOk.zones = some zones ∧
      reqTemplateOk.mapping = some mapping ∧
      ∃ imgs,
        ([("images/0001.png", [9, 9]), ("images/0002.png", [9, 9]),
          ("output.csv", [1])] : List (String × List Nat)) =
          imgs ++ [("output.csv",
            unparseConst (csv.data.filter (fun row => row ≠ [])))] ∧
        imgs.length = (csv.data.filter (fun row => row ≠ [])).length ∧
        ∀ j row, (csv.data.filter (fun row => row ≠ []))[j]? = some row →
          ∃ entry, renderOne dimsConst renderKeepBackground zones mapping
              (effImageColumn reqTemplateOk.imageColumn) imageMap
              templateBuffer j row = .ok entry ∧
            imgs[j]? = some entry ∧
            entry.1 = "images/" ++ pad4 (j + 1) ++ ".png" :=
  claimC4 dimsConst renderKeepBackground unparseConst (fun b => b)
    reqTemplateOk
    [("images/0001.png", [9, 9]), ("images/0002.png", [9, 9]),
     ("output.csv", [1])] (by decide)

/-- Claim C5: a request that passes every earlier validation but whose
filtered CSV row count exceeds the row ceiling fails with the
too-many-rows error naming the configured limit (50), with zero renders
and zero archive appends. -/
theorem claimC5 (dims : List Nat → Option (Nat × Nat))
    (renderRow : Nat → Nat → List Zone → List (String × String) → Row →
      List Nat → List Nat)
    (unparse : List Row → List Nat) (inflateRaw : List Nat → List Nat)
    (req : GenRequest) (csv : CsvFile) (zones : List Zone)
    (mapping : List (String × String))
    (hcsv : req.csv = some csv) (hzones : req.zones = some zones)
    (hmapping : req.mapping = some mapping)
    (hsource : ¬ (req.template = none ∧ req.imagesZip = none))
    (htsize : fileTooLarge req.template MAX_TEMPLATE_SIZE_BYTES = false)
    (hzsize : fileTooLarge req.imagesZip MAX_IMAGES_ZIP_SIZE_BYTES = false)
    (hcsize : csv.file.size ≤ MAX_CSV_SIZE_BYTES)
    (hzne : zones ≠ [])
    (hperr : csv.parseErrors = [])
    (hif : "image_file" ∈ csv.fields.filter (fun f => f ≠ ""))
    (hcol : effImageColumn req.imageColumn ∈
      csv.fields.filter (fun f => f ≠ ""))
    (hrows : MAX_ROWS < (csv.data.filter (fun row => row ≠ [])).length) :
    generatePOST dims renderRow unparse inflateRaw req =
      ⟨.error (.tooManyRows MAX_ROWS), []⟩ ∧ MAX_ROWS = 50 := by
  refine ⟨?_, rfl⟩
  have h1 : ¬ (fileTooLarge req.template MAX_TEMPLATE_SIZE_BYTES = true) := by
    simp [htsize]
  have h2 : ¬ (fileTooLarge req.imagesZip MAX_IMAGES_ZIP_SIZE_BYTES = true) := by
    simp [hzsize]
  have h3 : ¬ (MAX_CSV_SIZE_BYTES < csv.file.size) := Nat.not_lt.mpr hcsize
  have h4 : ¬ (zones.isEmpty = true) := by
    cases zones with
    | nil => exact absurd rfl hzne
    | cons a t => simp
  have h5 : ¬ ("image_file" ∉ csv.fields.filter (fun f => f ≠ "")) :=
    not_not_intro hif
  have h6 : ¬ (effImageColumn req.imageColumn ∉
      csv.fields.filter (fun f => f ≠ "")) := not_not_intro hcol
  have h7 : ¬ ((csv.data.filter (fun row => row ≠ [])).isEmpty = true) := by
    intro h0
    rw [List.isEmpty_iff] at h0
    rw [h0] at hrows
    simp [MAX_ROWS] at hrows
  simp only [generatePOST, hcsv, hzones, hmapping, hperr]
  rw [if_neg hsource, if_neg h1, if_neg h2, if_neg h3, if_neg h4, if_neg h5,
    if_neg h6, if_neg h7, if_pos hrows]
  rfl

set_option maxRecDepth 1000000 in
/-- Claim C5 witnessed on a 51-row CSV against the 50-row ceiling. -/
theorem claimC5_witness :
    generatePOST dimsConst renderKeepBackground unparseConst (fun b => b)
      reqTooManyRows = ⟨.error (.tooManyRows MAX_ROWS), []⟩ ∧
    MAX_ROWS = 50 :=
  claimC5 dimsConst renderKeepBackground unparseConst (fun b => b)
    reqTooManyRows csvFiftyOneRows [zoneA] [] rfl rfl rfl (by decide)
    (by decide) (by decide) (by decide) (by decide) rfl (by decide)
    (by decide) (by decide)

/-- Claim C10: every request whose CSV header set (after dropping empty
names) lacks a column literally named `image_file` is rejected with a
client error (status 400) before any row is rendered, template mode
included. -/
theorem claimC10 (dims : List Nat → Option (Nat × Nat))
    (renderRow : Nat → Nat → List Zone → List (String × String) → Row →
      List Nat → List Nat)
    (unparse : List Row → List Nat) (inflateRaw : List Nat → List Nat)
    (req : GenRequest) (csv : CsvFile)
    (hcsv : req.csv = some csv)
    (hmiss : "image_file" ∉ csv.fields.filter (fun f => f ≠ "")) :
    ∃ e, generatePOST dims renderRow unparse inflateRaw req =
      ⟨.error e, []⟩ ∧ e.status = 400 := by
  cases hz : req.zones with
  | none =>
    simp only [generatePOST, hcsv, hz]
    exact ⟨.missingCsvZonesMapping, rfl, rfl⟩
  | some zones =>
    cases hm : req.mapping with
    | none =>
      simp only [generatePOST, hcsv, hz, hm]
      exact ⟨.missingCsvZonesMapping, rfl, rfl⟩
    | some mapping =>
      simp only [generatePOST, hcsv, hz, hm]
      by_cases c1 : req.template = none ∧ req.imagesZip = none
      · rw [if_pos c1]
        exact ⟨_, rfl, rfl⟩
      · rw [if_neg c1]
        by_cases c2 : fileTooLarge req.template MAX_TEMPLATE_SIZE_BYTES = true
        · rw [if_pos c2]
          exact ⟨_, rfl, rfl⟩
        · rw [if_neg c2]
          by_cases c3 :
              fileTooLarge req.imagesZip MAX_IMAGES_ZIP_SIZE_BYTES = true
          · rw [if_pos c3]
            exact ⟨_, rfl, rfl⟩
          · rw [if_neg c3]
            by_cases c4 : MAX_CSV_SIZE_BYTES < csv.file.size
            · rw [if_pos c4]
              exact ⟨_, rfl, rfl⟩
            · rw [if_neg c4]
              by_cases c5 : zones.isEmpty = true
              · rw [if_pos c5]
                exact ⟨_, rfl, rfl⟩
              · rw [if_neg c5]
                cases hpe : csv.parseErrors with
                | cons msg tl => exact ⟨_, rfl, rfl⟩
                | nil =>
                  rw [if_pos hmiss]
                  exact ⟨_, rfl, rfl⟩

/-- Claim C10 witnessed on a template-mode request whose CSV has only a
`name` column. -/
theorem claimC10_witness :
    ∃ e, generatePOST dimsConst renderKeepBackground unparseConst
      (fun b => b) reqMissingHeader = ⟨.error e, []⟩ ∧ e.status = 400 :=
  claimC10 dimsConst renderKeepBackground unparseConst (fun b => b)
    reqMissingHeader csvNoImageFile rfl (by decide)

end LabelForge
